import Mathlib

/-!
Shallow embedding of coreboot's `src/security/tpm/tspi/tspi.c`.

Each C function is modelled as a Lean function from an explicit environment
of collaborator responses (the `tlcl_*` command transport, the vboot hashing
collaborator, and the region device) to a pair of a returned status code and
the ordered list of collaborator calls (the trace) the function issues.
Compile-time configuration switches (`CONFIG(TPM1)`/`CONFIG(TPM2)`,
`CONFIG(TPM_DEACTIVATE)`, `CONFIG(TPM_STARTUP_IGNORE_POSTINIT)`,
`CONFIG(VBOOT_MEASURED_BOOT)`) become fields of a `Config` value.
-/

namespace Tspi

/-- Status codes of the command transport.  `TPM_SUCCESS` is 0 in the source;
the error codes are distinct nonzero constants (the spec's status taxonomy
lists IO error, hash error, read failure, invalid argument, invalid-post-init
and must-reboot as distinct outcomes). -/
def TPM_SUCCESS : Nat := 0

def TPM_E_INVALID_POSTINIT : Nat := 0x26

def TPM_E_MUST_REBOOT : Nat := 0x5002

def TPM_E_READ_FAILURE : Nat := 0x500a

def TPM_E_HASH_ERROR : Nat := 0x500c

def TPM_E_INVALID_ARG : Nat := 0x500d

def TPM_E_IOERROR : Nat := 0x500e

/-- TPM 2.0 algorithm identifiers used by the `CONFIG(TPM2)` switch in
`tpm_extend_pcr`. -/
def TPM_ALG_SHA1 : Nat := 0x0004

def TPM_ALG_SHA256 : Nat := 0x000B

def TPM_ALG_SHA512 : Nat := 0x000D

/-- vboot hash-algorithm selectors (`enum vb2_hash_algorithm`). -/
def VB2_HASH_SHA1 : Nat := 1

def VB2_HASH_SHA256 : Nat := 2

def VB2_HASH_SHA512 : Nat := 3

/-- Modelled from the spec: `TPM_PCR_MAX_LEN`, the capacity of the local
digest buffer in `tpm_measure_region`, is defined in the repository header
`security/tpm/tspi.h`, which is not part of the measured source tree; the
constant is 64 bytes (large enough for the largest supported digest). -/
def TPM_PCR_MAX_LEN : Nat := 64

/-- Modelled from the spec: `vb2_digest_size` is the hashing collaborator's
`digest_size(alg)` operation (vboot library, outside this repository): the
digest length determined by the algorithm — 20 bytes for SHA-1, 32 for
SHA-256, 64 for SHA-512, and 0 for an unrecognized selector. -/
def vb2_digest_size (alg : Nat) : Nat :=
  if alg = VB2_HASH_SHA1 then 20
  else if alg = VB2_HASH_SHA256 then 32
  else if alg = VB2_HASH_SHA512 then 64
  else 0

/-- The TPM hardware generation selected at build time
(`CONFIG(TPM1)` vs `CONFIG(TPM2)`, mutually exclusive). -/
inductive TpmGen where
  | tpm1
  | tpm2
deriving DecidableEq

/-- Build-time configuration switches consumed by `tspi.c`. -/
structure Config where
  gen : TpmGen
  tpmDeactivate : Bool
  startupIgnorePostinit : Bool
  vbootMeasuredBoot : Bool

/-- One collaborator call issued by the code, in program order. -/
inductive Event where
  | libInit
  | startup
  | resume
  | assertPP
  | ppCmdEnable
  | getFlags
  | setEnable
  | setDeactivated (b : Bool)
  | forceClear
  | extend (pcr : Nat) (algorithm : Nat) (digest : List Nat) (len : Nat)
  | logAdd
  | readAt (offset : Nat) (len : Nat)
  | digestInit
  | digestExtendCall (chunk : List Nat)
  | digestFinalize
deriving DecidableEq

/-- Is the event a region read (`rdev_readat`)? -/
def Event.isRead : Event → Bool
  | .readAt _ _ => true
  | _ => false

/-- Is the event a device extend command (`tlcl_extend`)? -/
def Event.isExtend : Event → Bool
  | .extend _ _ _ _ => true
  | _ => false

/-- Is the event a deactivate-toggle command (`tlcl_set_deactivated`)? -/
def Event.isToggle : Event → Bool
  | .setDeactivated _ => true
  | _ => false

/-- Is the event a state-changing device command (as opposed to a read or a
hash/log operation)? -/
def Event.isStateChanging : Event → Bool
  | .setEnable => true
  | .setDeactivated _ => true
  | .forceClear => true
  | .extend _ _ _ _ => true
  | _ => false

/-- Responses of the external collaborators.  Status-returning transport
commands get a fixed response; `tlcl_assert_physical_presence` (called up to
twice) is indexed by call number, as are the streaming-hash extend steps.
The region device is a byte list (`data`, whose length is the region size)
plus a per-offset read-success flag; the hash itself is an abstract function
from the absorbed byte sequence to a digest. -/
structure Env where
  libInitRes : Nat
  startupRes : Nat
  resumeRes : Nat
  assertPPRes : Nat → Nat
  ppCmdEnableRes : Nat
  getFlagsRes : Nat
  disabled : Bool
  deactivated : Bool
  setEnableRes : Nat
  setDeactivatedRes : Bool → Nat
  forceClearRes : Nat
  extendRes : Nat
  data : List Nat
  readOk : Nat → Bool
  digestInitOk : Bool
  digestExtendOk : Nat → Bool
  digestFinalizeOk : Bool
  hashFn : Nat → List Nat → List Nat

/-- The deactivated-flag comparison and toggle at the end of
`tpm1_invoke_state_machine` (lines 53-65 of the source): if the normalized
`deactivated` flag differs from `CONFIG(TPM_DEACTIVATE)`, issue
`tlcl_set_deactivated(!deactivated)`; on failure return that failure, on
success return `TPM_E_MUST_REBOOT`; if the flags agree, return the incoming
`TPM_SUCCESS`. -/
def tpm1_check_deactivated (deactivatePolicy : Bool) (env : Env) :
    Nat × List Event :=
  if env.deactivated ≠ deactivatePolicy then
    if env.setDeactivatedRes (!env.deactivated) ≠ TPM_SUCCESS then
      (env.setDeactivatedRes (!env.deactivated),
        [Event.setDeactivated (!env.deactivated)])
    else
      (TPM_E_MUST_REBOOT, [Event.setDeactivated (!env.deactivated)])
  else
    (TPM_SUCCESS, [])

/-- `tpm1_invoke_state_machine` (TPM 1.2 state reconciler): read the
capability flags (failure is fatal); if `disabled`, issue `tlcl_set_enable`
(failure is fatal); then reconcile the deactivated flag against policy. -/
def tpm1_invoke_state_machine (deactivatePolicy : Bool) (env : Env) :
    Nat × List Event :=
  if env.getFlagsRes ≠ TPM_SUCCESS then
    (env.getFlagsRes, [Event.getFlags])
  else if env.disabled then
    if env.setEnableRes ≠ TPM_SUCCESS then
      (env.setEnableRes, [Event.getFlags, Event.setEnable])
    else
      ((tpm1_check_deactivated deactivatePolicy env).1,
        Event.getFlags :: Event.setEnable ::
          (tpm1_check_deactivated deactivatePolicy env).2)
  else
    ((tpm1_check_deactivated deactivatePolicy env).1,
      Event.getFlags :: (tpm1_check_deactivated deactivatePolicy env).2)

/-- `tpm_setup_s3_helper`: issue `tlcl_resume`; remap
`TPM_E_INVALID_POSTINIT` to `TPM_SUCCESS`; propagate anything else. -/
def tpm_setup_s3_helper (env : Env) : Nat × List Event :=
  if env.resumeRes = TPM_SUCCESS then
    (TPM_SUCCESS, [Event.resume])
  else if env.resumeRes = TPM_E_INVALID_POSTINIT then
    (TPM_SUCCESS, [Event.resume])
  else
    (env.resumeRes, [Event.resume])

/-- `tpm_setup_epilogue`: emits a post code or a log line but never alters
the status it forwards. -/
def tpm_setup_epilogue (result : Nat) : Nat := result

/-- The tail of `tpm_setup` after physical presence has been established:
on `CONFIG(TPM1)` invoke the state reconciler, otherwise keep the
`TPM_SUCCESS` in hand; pass the result through the epilogue. -/
def tpm_setup_after_pp (cfg : Config) (env : Env) (evs : List Event) :
    Nat × List Event :=
  if cfg.gen = TpmGen.tpm1 then
    (tpm_setup_epilogue (tpm1_invoke_state_machine cfg.tpmDeactivate env).1,
      evs ++ (tpm1_invoke_state_machine cfg.tpmDeactivate env).2)
  else
    (tpm_setup_epilogue TPM_SUCCESS, evs)

/-- `tpm_setup`: initialize the transport (failure fatal); on the S3 resume
flag delegate to the resume helper; otherwise startup (with optional
invalid-post-init tolerance), physical-presence assertion with one
remediation retry, then the generation-1 state reconciler. -/
def tpm_setup (cfg : Config) (env : Env) (s3flag : Bool) : Nat × List Event :=
  if env.libInitRes ≠ TPM_SUCCESS then
    (tpm_setup_epilogue env.libInitRes, [Event.libInit])
  else if s3flag then
    (tpm_setup_epilogue (tpm_setup_s3_helper env).1,
      Event.libInit :: (tpm_setup_s3_helper env).2)
  else
    if (if cfg.startupIgnorePostinit = true ∧
          env.startupRes = TPM_E_INVALID_POSTINIT then TPM_SUCCESS
        else env.startupRes) ≠ TPM_SUCCESS then
      (tpm_setup_epilogue
        (if cfg.startupIgnorePostinit = true ∧
            env.startupRes = TPM_E_INVALID_POSTINIT then TPM_SUCCESS
         else env.startupRes),
        [Event.libInit, Event.startup])
    else if env.assertPPRes 0 ≠ TPM_SUCCESS then
      if env.ppCmdEnableRes ≠ TPM_SUCCESS then
        (tpm_setup_epilogue env.ppCmdEnableRes,
          [Event.libInit, Event.startup, Event.assertPP, Event.ppCmdEnable])
      else if env.assertPPRes 1 ≠ TPM_SUCCESS then
        (tpm_setup_epilogue (env.assertPPRes 1),
          [Event.libInit, Event.startup, Event.assertPP, Event.ppCmdEnable,
            Event.assertPP])
      else
        tpm_setup_after_pp cfg env
          [Event.libInit, Event.startup, Event.assertPP, Event.ppCmdEnable,
            Event.assertPP]
    else
      tpm_setup_after_pp cfg env [Event.libInit, Event.startup, Event.assertPP]

/-- The `CONFIG(TPM2)` algorithm-selector mapping in `tpm_extend_pcr`:
only SHA-1/256/512 are accepted; anything else is rejected. -/
def tpm2_map_alg (digestAlgo : Nat) : Option Nat :=
  if digestAlgo = VB2_HASH_SHA1 then some TPM_ALG_SHA1
  else if digestAlgo = VB2_HASH_SHA256 then some TPM_ALG_SHA256
  else if digestAlgo = VB2_HASH_SHA512 then some TPM_ALG_SHA512
  else none

/-- `tpm_extend_pcr`: reject a null digest with `TPM_E_IOERROR` before any
device call; on the newer generation map the algorithm selector (rejecting an
unrecognized one with `TPM_E_HASH_ERROR` before any device call), on the
older generation keep the initialized value 0; issue `tlcl_extend`; on
success optionally append a measurement-log entry. -/
def tpm_extend_pcr (cfg : Config) (env : Env) (pcr : Nat) (digestAlgo : Nat)
    (digest : Option (List Nat)) (digestLen : Nat) : Nat × List Event :=
  match digest with
  | none => (TPM_E_IOERROR, [])
  | some d =>
    match (if cfg.gen = TpmGen.tpm2 then tpm2_map_alg digestAlgo
           else some 0) with
    | none => (TPM_E_HASH_ERROR, [])
    | some algorithm =>
      if env.extendRes ≠ TPM_SUCCESS then
        (env.extendRes, [Event.extend pcr algorithm d digestLen])
      else if cfg.vbootMeasuredBoot then
        (TPM_SUCCESS, [Event.extend pcr algorithm d digestLen, Event.logAdd])
      else
        (TPM_SUCCESS, [Event.extend pcr algorithm d digestLen])

/-- The hash algorithm implied by the TPM generation in
`tpm_measure_region` (lines 263-267 of the source): SHA-1 on `CONFIG(TPM1)`,
SHA-256 otherwise. -/
def measure_hash_alg (gen : TpmGen) : Nat :=
  if gen = TpmGen.tpm1 then VB2_HASH_SHA1 else VB2_HASH_SHA256

/-- The device algorithm identifier that `tpm_extend_pcr` passes to
`tlcl_extend` when invoked from `tpm_measure_region`: the selector mapped by
the newer generation, the initialized 0 on the older. -/
def measure_device_alg (gen : TpmGen) : Nat :=
  if gen = TpmGen.tpm2 then TPM_ALG_SHA256 else 0

/-- The chunk loop of `tpm_measure_region`, modelled with explicit fuel
(the caller supplies `size` units, one per loop iteration; `none` means the
fuel ran out, which the termination theorem rules out for a positive chunk
size).  `offset` is the 32-bit loop variable, so its increment is reduced
modulo 2^32; `k` counts the streaming-hash extend calls for the
per-call failure oracle; `ctx` is the byte sequence absorbed so far.
On success the loop yields its trace and the absorbed bytes; on a read or
hash failure it yields the trace up to the failure and the error status. -/
def measure_loop (env : Env) (chunkSize size : Nat) :
    Nat → Nat → Nat → List Nat → Option (List Event × Except Nat (List Nat))
  | 0, offset, _, ctx =>
    if offset < size then none else some ([], Except.ok ctx)
  | fuel + 1, offset, k, ctx =>
    if offset < size then
      if env.readOk offset then
        if env.digestExtendOk k then
          match measure_loop env chunkSize size fuel
              ((offset + min chunkSize (size - offset)) % 4294967296) (k + 1)
              (ctx ++ (env.data.drop offset).take
                (min chunkSize (size - offset))) with
          | none => none
          | some (evs, res) =>
            some (Event.readAt offset (min chunkSize (size - offset)) ::
              Event.digestExtendCall ((env.data.drop offset).take
                (min chunkSize (size - offset))) :: evs, res)
        else
          some ([Event.readAt offset (min chunkSize (size - offset)),
            Event.digestExtendCall ((env.data.drop offset).take
              (min chunkSize (size - offset)))],
            Except.error TPM_E_HASH_ERROR)
      else
        some ([Event.readAt offset (min chunkSize (size - offset))],
          Except.error TPM_E_READ_FAILURE)
    else
      some ([], Except.ok ctx)

/-- `tpm_measure_region`: validate the region and label, initialize the
transport, pick the generation-implied hash algorithm, initialize the
streaming hash, run the chunk loop, finalize the digest and hand it to
`tpm_extend_pcr`.  The region device and label being non-null are modelled
as two booleans; the region size is the length of `env.data`; a `none`
result is the loop exhausting its fuel (never happens for a positive chunk
size). -/
def tpm_measure_region (cfg : Config) (env : Env) (chunkSize : Nat)
    (rdevPresent rnamePresent : Bool) (pcr : Nat) :
    Option (Nat × List Event) :=
  if ¬rdevPresent ∨ ¬rnamePresent then
    some (TPM_E_INVALID_ARG, [])
  else if env.libInitRes ≠ TPM_SUCCESS then
    some (env.libInitRes, [Event.libInit])
  else if ¬env.digestInitOk then
    some (TPM_E_HASH_ERROR, [Event.libInit, Event.digestInit])
  else
    match measure_loop env chunkSize env.data.length env.data.length
        0 0 [] with
    | none => none
    | some (evs, Except.error code) =>
      some (code, Event.libInit :: Event.digestInit :: evs)
    | some (evs, Except.ok ctx) =>
      if ¬env.digestFinalizeOk then
        some (TPM_E_HASH_ERROR,
          Event.libInit :: Event.digestInit ::
            (evs ++ [Event.digestFinalize]))
      else
        some ((tpm_extend_pcr cfg env pcr (measure_hash_alg cfg.gen)
            (some (env.hashFn (measure_hash_alg cfg.gen) ctx))
            (vb2_digest_size (measure_hash_alg cfg.gen))).1,
          Event.libInit :: Event.digestInit ::
            (evs ++ Event.digestFinalize ::
              (tpm_extend_pcr cfg env pcr (measure_hash_alg cfg.gen)
                (some (env.hashFn (measure_hash_alg cfg.gen) ctx))
                (vb2_digest_size (measure_hash_alg cfg.gen))).2))

/-- The status component of an optional run result. -/
def runStatus (r : Option (Nat × List Event)) : Nat := (r.getD (0, [])).1

/-- The trace component of an optional run result. -/
def runTrace (r : Option (Nat × List Event)) : List Event := (r.getD (0, [])).2

/-- Fuel-indexed worker for `chunkList` (structural recursion, so that the
list evaluates on concrete inputs); `chunkList` supplies enough fuel. -/
def chunkListAux (C S : Nat) : Nat → Nat → List (Nat × Nat)
  | 0, _ => []
  | fuel + 1, offset =>
    if 0 < C ∧ offset < S then
      (offset, min C (S - offset)) ::
        chunkListAux C S fuel (offset + min C (S - offset))
    else []

/-- The list of (offset, length) pairs the chunk loop reads for a region of
size `S` with chunk size `C`: offsets step from `offset` by the chunk size,
each length being `min C (S - offset)`. -/
def chunkList (C S offset : Nat) : List (Nat × Nat) :=
  chunkListAux C S (S - offset) offset

/-- The pair of trace events one chunk produces: its read and its
streaming-hash extend with the bytes read. -/
def chunkEvents (env : Env) (p : Nat × Nat) : List Event :=
  [Event.readAt p.1 p.2,
    Event.digestExtendCall ((env.data.drop p.1).take p.2)]

/-- The full success trace of the chunk loop from a given offset. -/
def chunkTrace (env : Env) (C S offset : Nat) : List Event :=
  ((chunkList C S offset).map (chunkEvents env)).flatten

/-- `contiguousFrom o l` holds when the (offset, length) pairs in `l` are
contiguous and non-overlapping starting at `o`: each pair starts exactly
where the previous one ended. -/
def contiguousFrom : Nat → List (Nat × Nat) → Bool
  | _, [] => true
  | o, p :: rest => p.1 = o && contiguousFrom (o + p.2) rest

/-! Concrete collaborator environments and configurations used to
instantiate the theorems below. -/

/-- An environment in which every collaborator call succeeds, over an empty
region; the abstract hash maps an absorbed byte list to the singleton list
of its length. -/
def envAllOk : Env := {
  libInitRes := 0, startupRes := 0, resumeRes := 0,
  assertPPRes := fun _ => 0, ppCmdEnableRes := 0, getFlagsRes := 0,
  disabled := false, deactivated := false, setEnableRes := 0,
  setDeactivatedRes := fun _ => 0, forceClearRes := 0, extendRes := 0,
  data := [], readOk := fun _ => true, digestInitOk := true,
  digestExtendOk := fun _ => true, digestFinalizeOk := true,
  hashFn := fun _ l => [l.length] }

/-- An older-generation configuration with the deactivate policy off. -/
def cfgGen1 : Config := {
  gen := TpmGen.tpm1, tpmDeactivate := false,
  startupIgnorePostinit := false, vbootMeasuredBoot := true }

/-- A newer-generation configuration. -/
def cfgGen2 : Config := {
  gen := TpmGen.tpm2, tpmDeactivate := false,
  startupIgnorePostinit := false, vbootMeasuredBoot := false }

/-- All-success environment over a ten-byte region. -/
def envTen : Env := { envAllOk with data := [1, 2, 3, 4, 5, 6, 7, 8, 9, 10] }

/-- All-success environment over a three-byte region except that the read at
offset 0 fails. -/
def envReadFail : Env :=
  { envAllOk with data := [5, 6, 7], readOk := fun _ => false }

/-- All-success environment over the ten-byte region, except that reads at
offsets at or beyond 4 fail (the second chunk read fails). -/
def envReadAt4 : Env := { envTen with readOk := fun o => decide (o < 4) }

/-- Environment for the reconciler: flags read succeeds reporting the device
disabled and deactivated, and the enable command fails with an IO error. -/
def envEnableFails : Env := { envAllOk with
  disabled := true, deactivated := true, setEnableRes := TPM_E_IOERROR }

/-- Environment for the reconciler: flags read succeeds reporting the device
disabled and not deactivated, and every command succeeds. -/
def envDisabledOnly : Env := { envAllOk with disabled := true }

/-- Environment for the reconciler: device enabled but deactivated, all
commands succeed. -/
def envDeactivated : Env := { envAllOk with deactivated := true }

/-! Claim theorems. -/

/-- C5: `tpm_extend_pcr` with an absent (null) digest returns
`TPM_E_IOERROR` and issues zero device calls, for every configuration
(either TPM generation), environment, PCR index, algorithm selector and
digest length. -/
theorem extend_pcr_null_digest_ioerror (cfg : Config) (env : Env)
    (pcr digestAlgo digestLen : Nat) :
    tpm_extend_pcr cfg env pcr digestAlgo none digestLen =
      (TPM_E_IOERROR, []) := rfl

/-- C6: on the newer TPM generation, `tpm_extend_pcr` with an algorithm
selector other than SHA-1/SHA-256/SHA-512 returns `TPM_E_HASH_ERROR` with
zero device calls; each of the three accepted selectors is mapped to the
corresponding device algorithm identifier on the extend command it issues;
on the older generation no selector is rejected or mapped — the extend
command always carries the initialized identifier 0. -/
theorem extend_pcr_algorithm_mapping (cfg : Config) (env : Env)
    (pcr digestLen : Nat) (d : List Nat) :
    (cfg.gen = TpmGen.tpm2 →
      (∀ algo, algo ≠ VB2_HASH_SHA1 → algo ≠ VB2_HASH_SHA256 →
        algo ≠ VB2_HASH_SHA512 →
        tpm_extend_pcr cfg env pcr algo (some d) digestLen =
          (TPM_E_HASH_ERROR, [])) ∧
      (tpm_extend_pcr cfg env pcr VB2_HASH_SHA1 (some d) digestLen).2.head? =
        some (Event.extend pcr TPM_ALG_SHA1 d digestLen) ∧
      (tpm_extend_pcr cfg env pcr VB2_HASH_SHA256 (some d) digestLen).2.head? =
        some (Event.extend pcr TPM_ALG_SHA256 d digestLen) ∧
      (tpm_extend_pcr cfg env pcr VB2_HASH_SHA512 (some d) digestLen).2.head? =
        some (Event.extend pcr TPM_ALG_SHA512 d digestLen)) ∧
    (cfg.gen = TpmGen.tpm1 → ∀ algo,
      (tpm_extend_pcr cfg env pcr algo (some d) digestLen).2.head? =
        some (Event.extend pcr 0 d digestLen)) := by
  constructor
  · intro hgen
    refine ⟨fun algo h1 h2 h3 => ?_, ?_, ?_, ?_⟩
    · simp [tpm_extend_pcr, tpm2_map_alg, hgen, h1, h2, h3]
    all_goals
      simp only [tpm_extend_pcr, tpm2_map_alg, hgen, if_pos, if_true]
      norm_num [VB2_HASH_SHA1, VB2_HASH_SHA256, VB2_HASH_SHA512]
      split_ifs <;> simp
  · intro hgen algo
    have hne : ¬cfg.gen = TpmGen.tpm2 := by rw [hgen]; intro h; cases h
    simp only [tpm_extend_pcr]
    rw [if_neg hne]
    split_ifs <;> rfl

/-- C6 witness: on the newer generation, selector 9 (not one of
SHA-1/256/512) is rejected with a hash error and an empty trace. -/
theorem extend_pcr_algorithm_mapping_witness :
    tpm_extend_pcr cfgGen2 envAllOk 0 9 (some [1]) 2 =
      (TPM_E_HASH_ERROR, []) :=
  ((extend_pcr_algorithm_mapping cfgGen2 envAllOk 0 2 [1]).1 rfl).1 9
    (by decide) (by decide) (by decide)

/-- C10: for both generation-selected hash algorithms in
`tpm_measure_region` (SHA-1 on the older generation, SHA-256 on the newer),
the digest size reported by the hashing collaborator is at most
`TPM_PCR_MAX_LEN`, the capacity of the local digest buffer, so the assertion
guarding the buffer holds. -/
theorem measure_digest_fits_buffer (gen : TpmGen) :
    vb2_digest_size (measure_hash_alg gen) ≤ TPM_PCR_MAX_LEN := by
  cases gen <;> decide

/-- C2 counterexample: in `envEnableFails` the flags read succeeds, the
deactivated flag (true) differs from the compiled policy (false), yet zero
deactivate-toggle commands are issued and must-reboot is not returned —
the device is also disabled and the enable command fails first, so the
reconciler returns that failure before ever reaching the toggle.  This
refutes the claim that a policy mismatch alone guarantees exactly one
toggle command. -/
theorem state_machine_toggle_counterexample :
    envEnableFails.getFlagsRes = TPM_SUCCESS ∧
    envEnableFails.deactivated ≠ false ∧
    ((tpm1_invoke_state_machine false envEnableFails).2.filter
      Event.isToggle) = [] ∧
    (tpm1_invoke_state_machine false envEnableFails).1 ≠
      TPM_E_MUST_REBOOT := by
  decide

/-- C2 (amended): in the older-generation state reconciler, if the flags
read succeeds, the enable step did not fail (the device was not disabled, or
the enable command succeeded), and the deactivated flag differs from the
compiled policy, then exactly one deactivate-toggle command is issued (with
the negated flag), and when that command succeeds the reconciler returns
`TPM_E_MUST_REBOOT`, which is distinct from `TPM_SUCCESS`. -/
theorem state_machine_toggle_must_reboot (policy : Bool) (env : Env)
    (hflags : env.getFlagsRes = TPM_SUCCESS)
    (hen : env.disabled = true → env.setEnableRes = TPM_SUCCESS)
    (hne : env.deactivated ≠ policy) :
    ((tpm1_invoke_state_machine policy env).2.filter Event.isToggle) =
      [Event.setDeactivated (!env.deactivated)] ∧
    (env.setDeactivatedRes (!env.deactivated) = TPM_SUCCESS →
      (tpm1_invoke_state_machine policy env).1 = TPM_E_MUST_REBOOT ∧
      TPM_E_MUST_REBOOT ≠ TPM_SUCCESS) := by
  cases hdis : env.disabled
  · constructor
    · simp [tpm1_invoke_state_machine, tpm1_check_deactivated, hflags, hdis,
        hne, Event.isToggle]
      split_ifs <;> simp [Event.isToggle]
    · intro h
      simp [tpm1_invoke_state_machine, tpm1_check_deactivated, hflags, hdis,
        hne, h]
      decide
  · have hen' := hen hdis
    constructor
    · simp [tpm1_invoke_state_machine, tpm1_check_deactivated, hflags, hdis,
        hne, hen', Event.isToggle]
      split_ifs <;> simp [Event.isToggle]
    · intro h
      simp [tpm1_invoke_state_machine, tpm1_check_deactivated, hflags, hdis,
        hne, hen', h]
      decide

/-- C2 witness: an enabled but deactivated device under the
deactivate-policy-off configuration — one toggle is issued and must-reboot
is returned. -/
theorem state_machine_toggle_must_reboot_witness :
    ((tpm1_invoke_state_machine false envDeactivated).2.filter
      Event.isToggle) =
      [Event.setDeactivated (!envDeactivated.deactivated)] ∧
    (envDeactivated.setDeactivatedRes (!envDeactivated.deactivated) =
        TPM_SUCCESS →
      (tpm1_invoke_state_machine false envDeactivated).1 =
        TPM_E_MUST_REBOOT ∧ TPM_E_MUST_REBOOT ≠ TPM_SUCCESS) :=
  state_machine_toggle_must_reboot false envDeactivated rfl
    (fun h => by cases h) (by decide)

/-- C3 counterexample: in `envDisabledOnly` the flags read succeeds and the
deactivated flag (false) already matches the compiled policy (false), yet
the reconciler issues a state-changing call — the device is reported
disabled, so `tlcl_set_enable` is issued (and, succeeding, the reconciler
still returns `TPM_SUCCESS`).  This refutes the claim that a policy match
alone guarantees zero state-changing calls. -/
theorem state_machine_match_counterexample :
    envDisabledOnly.getFlagsRes = TPM_SUCCESS ∧
    envDisabledOnly.deactivated = false ∧
    ((tpm1_invoke_state_machine false envDisabledOnly).2.filter
      Event.isStateChanging) ≠ [] ∧
    (tpm1_invoke_state_machine false envDisabledOnly).1 = TPM_SUCCESS := by
  decide

/-- C3 (amended): in the older-generation state reconciler, if the flags
read succeeds, the device is not reported disabled, and the deactivated flag
already matches the compiled policy, the reconciler issues zero
state-changing calls (its whole trace is the single flags read) and returns
`TPM_SUCCESS`. -/
theorem state_machine_match_success (policy : Bool) (env : Env)
    (hflags : env.getFlagsRes = TPM_SUCCESS)
    (hdis : env.disabled = false)
    (heq : env.deactivated = policy) :
    tpm1_invoke_state_machine policy env = (TPM_SUCCESS, [Event.getFlags]) ∧
    ((tpm1_invoke_state_machine policy env).2.filter
      Event.isStateChanging) = [] := by
  have h1 : tpm1_invoke_state_machine policy env =
      (TPM_SUCCESS, [Event.getFlags]) := by
    simp [tpm1_invoke_state_machine, tpm1_check_deactivated, hflags, hdis, heq]
  exact ⟨h1, by rw [h1]; rfl⟩

/-- C3 witness: an enabled, non-deactivated device under the
deactivate-policy-off configuration — only the flags read occurs and
`TPM_SUCCESS` is returned. -/
theorem state_machine_match_success_witness :
    tpm1_invoke_state_machine false envAllOk =
      (TPM_SUCCESS, [Event.getFlags]) ∧
    ((tpm1_invoke_state_machine false envAllOk).2.filter
      Event.isStateChanging) = [] :=
  state_machine_match_success false envAllOk rfl rfl rfl

/-- C4: after successful transport initialization, `tpm_setup` with the
resuming flag set issues only the resume-path calls (its trace is exactly
transport init followed by the resume command): the startup command, the
physical-presence assertion and its remediation, and every state-reconciler
call (flags read, enable, deactivate-toggle) never occur, on either
generation and for every configuration. -/
theorem tpm_setup_resume_only (cfg : Config) (env : Env)
    (hlib : env.libInitRes = TPM_SUCCESS) :
    (tpm_setup cfg env true).2 = [Event.libInit, Event.resume] ∧
    Event.startup ∉ (tpm_setup cfg env true).2 ∧
    Event.assertPP ∉ (tpm_setup cfg env true).2 ∧
    Event.ppCmdEnable ∉ (tpm_setup cfg env true).2 ∧
    Event.getFlags ∉ (tpm_setup cfg env true).2 ∧
    Event.setEnable ∉ (tpm_setup cfg env true).2 ∧
    (∀ b, Event.setDeactivated b ∉ (tpm_setup cfg env true).2) := by
  have hs3 : (tpm_setup_s3_helper env).2 = [Event.resume] := by
    simp only [tpm_setup_s3_helper]
    split_ifs <;> rfl
  have h1 : (tpm_setup cfg env true).2 = [Event.libInit, Event.resume] := by
    simp [tpm_setup, hlib, hs3]
  refine ⟨h1, ?_, ?_, ?_, ?_, ?_, fun b => ?_⟩ <;> rw [h1] <;> simp

/-- C4 witness: the older-generation configuration with every collaborator
succeeding — the resume path issues exactly transport init and resume. -/
theorem tpm_setup_resume_only_witness :
    (tpm_setup cfgGen1 envAllOk true).2 = [Event.libInit, Event.resume] ∧
    Event.startup ∉ (tpm_setup cfgGen1 envAllOk true).2 ∧
    Event.assertPP ∉ (tpm_setup cfgGen1 envAllOk true).2 ∧
    Event.ppCmdEnable ∉ (tpm_setup cfgGen1 envAllOk true).2 ∧
    Event.getFlags ∉ (tpm_setup cfgGen1 envAllOk true).2 ∧
    Event.setEnable ∉ (tpm_setup cfgGen1 envAllOk true).2 ∧
    (∀ b, Event.setDeactivated b ∉ (tpm_setup cfgGen1 envAllOk true).2) :=
  tpm_setup_resume_only cfgGen1 envAllOk rfl

/-! Chunk-list facts: the fuel worker is fuel-irrelevant once the fuel
covers the remaining size, the list unfolds one chunk at a time, its lengths
sum to the remaining size, it is contiguous, and every chunk carries the
length the loop computes at its offset. -/

lemma chunkListAux_congr (C S : Nat) :
    ∀ f1 f2 offset, S - offset ≤ f1 → S - offset ≤ f2 →
      chunkListAux C S f1 offset = chunkListAux C S f2 offset := by
  intro f1
  induction f1 with
  | zero =>
    intro f2 offset h1 h2
    cases f2 with
    | zero => rfl
    | succ m =>
      simp only [chunkListAux]
      rw [if_neg]
      omega
  | succ n ih =>
    intro f2 offset h1 h2
    cases f2 with
    | zero =>
      simp only [chunkListAux]
      rw [if_neg]
      omega
    | succ m =>
      simp only [chunkListAux]
      by_cases hc : 0 < C ∧ offset < S
      · rw [if_pos hc, if_pos hc]
        have hmin1 : 1 ≤ min C (S - offset) := le_min hc.1 (by omega)
        rw [ih m (offset + min C (S - offset)) (by omega) (by omega)]
      · rw [if_neg hc, if_neg hc]

lemma chunkList_neg (C S offset : Nat) (h : ¬(0 < C ∧ offset < S)) :
    chunkList C S offset = [] := by
  unfold chunkList
  cases hs : S - offset with
  | zero => rfl
  | succ m =>
    simp only [chunkListAux]
    rw [if_neg h]

lemma chunkList_pos (C S offset : Nat) (hC : 0 < C) (h : offset < S) :
    chunkList C S offset =
      (offset, min C (S - offset)) ::
        chunkList C S (offset + min C (S - offset)) := by
  unfold chunkList
  cases hs : S - offset with
  | zero => omega
  | succ n =>
    simp only [chunkListAux]
    rw [if_pos ⟨hC, h⟩, hs]
    have hmin1 : 1 ≤ min C (n + 1) := le_min hC (by omega)
    have hmin2 : min C (n + 1) ≤ n + 1 := min_le_right _ _
    congr 1
    apply chunkListAux_congr <;> omega

lemma chunkList_snd_sum (C S : Nat) (hC : 0 < C) :
    ∀ offset, ((chunkList C S offset).map Prod.snd).sum = S - offset := by
  have key : ∀ n offset, S - offset ≤ n →
      ((chunkList C S offset).map Prod.snd).sum = S - offset := by
    intro n
    induction n with
    | zero =>
      intro offset h
      rw [chunkList_neg C S offset (by omega)]
      simp
      omega
    | succ n ih =>
      intro offset h
      by_cases hlt : offset < S
      · rw [chunkList_pos C S offset hC hlt]
        have hmin1 : 1 ≤ min C (S - offset) := le_min hC (by omega)
        have hmin2 : min C (S - offset) ≤ S - offset := min_le_right _ _
        simp only [List.map_cons, List.sum_cons]
        rw [ih (offset + min C (S - offset)) (by omega)]
        omega
      · rw [chunkList_neg C S offset (by omega)]
        simp
        omega
  exact fun offset => key S offset (by omega)

lemma chunkList_contiguous (C S : Nat) :
    ∀ offset, contiguousFrom offset (chunkList C S offset) = true := by
  have key : ∀ n offset, S - offset ≤ n →
      contiguousFrom offset (chunkList C S offset) = true := by
    intro n
    induction n with
    | zero =>
      intro offset h
      rw [chunkList_neg C S offset (by omega)]
      rfl
    | succ n ih =>
      intro offset h
      by_cases hc : 0 < C ∧ offset < S
      · rw [chunkList_pos C S offset hc.1 hc.2]
        have hmin1 : 1 ≤ min C (S - offset) := le_min hc.1 (by omega)
        simp only [contiguousFrom, Bool.and_eq_true, decide_eq_true_eq]
        exact ⟨by trivial, ih _ (by omega)⟩
      · rw [chunkList_neg C S offset hc]
        rfl
  exact fun offset => key S offset (by omega)

lemma chunkList_mem_len (C S : Nat) :
    ∀ offset p, p ∈ chunkList C S offset → p.2 = min C (S - p.1) := by
  have key : ∀ n offset, S - offset ≤ n → ∀ p, p ∈ chunkList C S offset →
      p.2 = min C (S - p.1) := by
    intro n
    induction n with
    | zero =>
      intro offset h p hp
      rw [chunkList_neg C S offset (by omega)] at hp
      cases hp
    | succ n ih =>
      intro offset h p hp
      by_cases hc : 0 < C ∧ offset < S
      · rw [chunkList_pos C S offset hc.1 hc.2] at hp
        have hmin1 : 1 ≤ min C (S - offset) := le_min hc.1 (by omega)
        rcases List.mem_cons.mp hp with h1 | h1
        · subst h1; rfl
        · exact ih _ (by omega) p h1
      · rw [chunkList_neg C S offset hc] at hp
        cases hp
  exact fun offset => key S offset (by omega)

lemma chunkList_mem_ge (C S : Nat) :
    ∀ offset p, p ∈ chunkList C S offset → offset ≤ p.1 := by
  have key : ∀ n offset, S - offset ≤ n → ∀ p, p ∈ chunkList C S offset →
      offset ≤ p.1 := by
    intro n
    induction n with
    | zero =>
      intro offset h p hp
      rw [chunkList_neg C S offset (by omega)] at hp
      cases hp
    | succ n ih =>
      intro offset h p hp
      by_cases hc : 0 < C ∧ offset < S
      · rw [chunkList_pos C S offset hc.1 hc.2] at hp
        have hmin1 : 1 ≤ min C (S - offset) := le_min hc.1 (by omega)
        rcases List.mem_cons.mp hp with h1 | h1
        · subst h1; rfl
        · have := ih _ (by omega) p h1
          omega
      · rw [chunkList_neg C S offset hc] at hp
        cases hp
  exact fun offset => key S offset (by omega)

lemma chunkList_fst_mem_ge (C S offset F : Nat)
    (h : F ∈ (chunkList C S offset).map Prod.fst) : offset ≤ F := by
  obtain ⟨p, hp, he⟩ := List.mem_map.mp h
  have := chunkList_mem_ge C S offset p hp
  omega

/-! Success-trace facts: the per-chunk event blocks contain exactly the
reads, no extend commands and no hash finalization. -/

lemma chunkEvents_filter_read (env : Env) :
    ∀ l : List (Nat × Nat),
      ((l.map (chunkEvents env)).flatten).filter Event.isRead =
        l.map (fun p => Event.readAt p.1 p.2) := by
  intro l
  induction l with
  | nil => rfl
  | cons p rest ih =>
    simp only [List.map_cons, List.flatten_cons, List.filter_append, ih,
      chunkEvents]
    rfl

lemma chunkEvents_filter_extend (env : Env) :
    ∀ l : List (Nat × Nat),
      ((l.map (chunkEvents env)).flatten).filter Event.isExtend = [] := by
  intro l
  induction l with
  | nil => rfl
  | cons p rest ih =>
    simp only [List.map_cons, List.flatten_cons, List.filter_append, ih,
      chunkEvents]
    rfl

lemma chunkEvents_no_finalize (env : Env) :
    ∀ l : List (Nat × Nat),
      Event.digestFinalize ∉ (l.map (chunkEvents env)).flatten := by
  intro l
  induction l with
  | nil => simp
  | cons p rest ih =>
    simp only [List.map_cons, List.flatten_cons, List.mem_append, chunkEvents]
    rintro (h | h)
    · simp at h
    · exact ih h

lemma chunkTrace_neg (env : Env) (C S offset : Nat)
    (h : ¬(0 < C ∧ offset < S)) : chunkTrace env C S offset = [] := by
  unfold chunkTrace
  rw [chunkList_neg C S offset h]
  rfl

lemma chunkTrace_pos (env : Env) (C S offset : Nat) (hC : 0 < C)
    (hoff : offset < S) :
    chunkTrace env C S offset =
      Event.readAt offset (min C (S - offset)) ::
      Event.digestExtendCall
        ((env.data.drop offset).take (min C (S - offset))) ::
      chunkTrace env C S (offset + min C (S - offset)) := by
  unfold chunkTrace
  rw [chunkList_pos C S offset hC hoff]
  simp [chunkEvents]

/-! Chunk-loop facts: with every read and hash step succeeding the loop
produces exactly the chunk trace and absorbs exactly the remaining bytes;
given enough fuel it always produces a result; and it stops at the first
failing read. -/

lemma measure_loop_all_ok (env : Env) (C S : Nat) (hC : 0 < C)
    (hS : S < 4294967296)
    (hread : ∀ o, env.readOk o = true)
    (hdig : ∀ j, env.digestExtendOk j = true) :
    ∀ fuel offset k ctx, offset ≤ S → S - offset ≤ fuel →
      measure_loop env C S fuel offset k ctx =
        some (chunkTrace env C S offset,
          Except.ok (ctx ++ (env.data.drop offset).take (S - offset))) := by
  intro fuel
  induction fuel with
  | zero =>
    intro offset k ctx h1 h2
    have hoff : ¬ offset < S := by omega
    simp only [measure_loop, if_neg hoff]
    rw [chunkTrace_neg env C S offset (by omega)]
    simp [show S - offset = 0 by omega]
  | succ n ih =>
    intro offset k ctx h1 h2
    by_cases hoff : offset < S
    · have hmin1 : 1 ≤ min C (S - offset) := le_min hC (by omega)
      have hmin2 : min C (S - offset) ≤ S - offset := min_le_right _ _
      have hmod : (offset + min C (S - offset)) % 4294967296 =
          offset + min C (S - offset) := Nat.mod_eq_of_lt (by omega)
      have hbytes : (env.data.drop offset).take (S - offset) =
          (env.data.drop offset).take (min C (S - offset)) ++
          ((env.data.drop (offset + min C (S - offset))).take
            (S - (offset + min C (S - offset)))) := by
        have e2 : env.data.drop (offset + min C (S - offset)) =
            (env.data.drop offset).drop (min C (S - offset)) := by
          rw [List.drop_drop]
        rw [e2, ← List.take_add]
        congr 1
        omega
      simp only [measure_loop, if_pos hoff, hread offset, hdig k, if_true]
      rw [hmod, ih (offset + min C (S - offset)) (k + 1) _ (by omega)
        (by omega)]
      rw [chunkTrace_pos env C S offset hC hoff, hbytes,
        ← List.append_assoc]
    · simp only [measure_loop, if_neg hoff]
      rw [chunkTrace_neg env C S offset (by omega)]
      simp [show S - offset = 0 by omega]

lemma measure_loop_isSome (env : Env) (C S : Nat) (hC : 0 < C)
    (hS : S < 4294967296) :
    ∀ fuel offset k ctx, offset ≤ S → S - offset ≤ fuel →
      (measure_loop env C S fuel offset k ctx).isSome = true := by
  intro fuel
  induction fuel with
  | zero =>
    intro offset k ctx h1 h2
    have hoff : ¬ offset < S := by omega
    simp [measure_loop, hoff]
  | succ n ih =>
    intro offset k ctx h1 h2
    by_cases hoff : offset < S
    · have hmin1 : 1 ≤ min C (S - offset) := le_min hC (by omega)
      have hmin2 : min C (S - offset) ≤ S - offset := min_le_right _ _
      have hmod : (offset + min C (S - offset)) % 4294967296 =
          offset + min C (S - offset) := Nat.mod_eq_of_lt (by omega)
      simp only [measure_loop, if_pos hoff]
      cases hr : env.readOk offset
      · simp
      · cases hd : env.digestExtendOk k
        · simp
        · simp only [if_true]
          rw [hmod]
          have hrec := ih (offset + min C (S - offset)) (k + 1)
            (ctx ++ (env.data.drop offset).take (min C (S - offset)))
            (by omega) (by omega)
          obtain ⟨x, hx⟩ := Option.isSome_iff_exists.mp hrec
          rw [hx]
          obtain ⟨evs, res⟩ := x
          rfl
    · simp [measure_loop, hoff]

lemma measure_loop_read_fail (env : Env) (C S F : Nat) (hC : 0 < C)
    (hS : S < 4294967296)
    (hdig : ∀ j, env.digestExtendOk j = true)
    (hFfail : env.readOk F = false) :
    ∀ fuel offset k ctx, offset ≤ S → S - offset ≤ fuel →
      F ∈ (chunkList C S offset).map Prod.fst →
      (∀ p ∈ chunkList C S offset, p.1 < F → env.readOk p.1 = true) →
      ∃ evs, measure_loop env C S fuel offset k ctx =
          some (evs, Except.error TPM_E_READ_FAILURE) ∧
        (∀ o l, Event.readAt o l ∈ evs → o ≤ F) ∧
        Event.digestFinalize ∉ evs ∧
        evs.filter Event.isExtend = [] := by
  intro fuel
  induction fuel with
  | zero =>
    intro offset k ctx h1 h2 hmem hprior
    rw [chunkList_neg C S offset (by omega)] at hmem
    simp at hmem
  | succ n ih =>
    intro offset k ctx h1 h2 hmem hprior
    by_cases hoff : offset < S
    · have hmin1 : 1 ≤ min C (S - offset) := le_min hC (by omega)
      have hmin2 : min C (S - offset) ≤ S - offset := min_le_right _ _
      have hmod : (offset + min C (S - offset)) % 4294967296 =
          offset + min C (S - offset) := Nat.mod_eq_of_lt (by omega)
      rw [chunkList_pos C S offset hC hoff] at hmem hprior
      by_cases hF : F = offset
      · subst hF
        refine ⟨[Event.readAt F (min C (S - F))], ?_, ?_, ?_, ?_⟩
        · simp only [measure_loop, if_pos hoff, hFfail]
          rfl
        · intro o l hm
          simp only [List.mem_singleton, Event.readAt.injEq] at hm
          omega
        · simp
        · rfl
      · have hmem' : F ∈ (chunkList C S
            (offset + min C (S - offset))).map Prod.fst := by
          simp only [List.map_cons, List.mem_cons] at hmem
          rcases hmem with h | h
          · exact absurd h hF
          · exact h
        have hofflt : offset < F := by
          have := chunkList_fst_mem_ge C S (offset + min C (S - offset))
            F hmem'
          omega
        have hreadok : env.readOk offset = true :=
          hprior (offset, min C (S - offset)) (List.mem_cons_self _ _)
            hofflt
        have hprior' : ∀ p ∈ chunkList C S (offset + min C (S - offset)),
            p.1 < F → env.readOk p.1 = true :=
          fun p hp => hprior p (List.mem_cons_of_mem _ hp)
        obtain ⟨evs', hloop', hr', hf', he'⟩ :=
          ih (offset + min C (S - offset)) (k + 1)
            (ctx ++ (env.data.drop offset).take (min C (S - offset)))
            (by omega) (by omega) hmem' hprior'
        refine ⟨Event.readAt offset (min C (S - offset)) ::
          Event.digestExtendCall
            ((env.data.drop offset).take (min C (S - offset))) :: evs',
          ?_, ?_, ?_, ?_⟩
        · simp only [measure_loop, if_pos hoff, hreadok, hdig k, if_true]
          rw [hmod, hloop']
        · intro o l hm
          simp only [List.mem_cons] at hm
          rcases hm with h | h | h
          · simp only [Event.readAt.injEq] at h
            omega
          · cases h
          · exact hr' o l h
        · simp only [List.mem_cons]
          rintro (h | h | h)
          · cases h
          · cases h
          · exact hf' h
        · simp only [List.filter_cons]
          simp [Event.isExtend, he']
    · rw [chunkList_neg C S offset (by omega)] at hmem
      simp at hmem

/-- The extend-service call made at the end of `tpm_measure_region` issues
exactly one device extend command (carrying the generation's device
algorithm identifier) and no region reads, whatever the extend result and
the logging configuration. -/
lemma extend_pcr_measure_filters (cfg : Config) (env : Env) (pcr dl : Nat)
    (d : List Nat) :
    (tpm_extend_pcr cfg env pcr (measure_hash_alg cfg.gen)
        (some d) dl).2.filter Event.isExtend =
      [Event.extend pcr (measure_device_alg cfg.gen) d dl] ∧
    (tpm_extend_pcr cfg env pcr (measure_hash_alg cfg.gen)
        (some d) dl).2.filter Event.isRead = [] := by
  cases hg : cfg.gen <;>
    simp only [tpm_extend_pcr, measure_hash_alg, measure_device_alg,
      tpm2_map_alg, hg] <;>
    norm_num [VB2_HASH_SHA1, VB2_HASH_SHA256] <;>
    constructor <;>
    (split_ifs <;> simp_all [Event.isExtend, Event.isRead])

/-- C1: over a region of size S (the region bytes) with chunk size C, when
every collaborator call succeeds, `tpm_measure_region` completes and its
trace's reads are exactly the chunk list of (offset, length) pairs — which
starts at 0, is contiguous and non-overlapping, has lengths summing exactly
to S, each length being `min C (S - offset)` — and the trace contains
exactly one device extend command, carrying the hash of the full S-byte
concatenation (the abstract hash applied to the whole region contents). -/
theorem measure_region_chunked (cfg : Config) (env : Env) (C pcr : Nat)
    (hC : 0 < C) (hS : env.data.length < 4294967296)
    (hlib : env.libInitRes = TPM_SUCCESS)
    (hinit : env.digestInitOk = true)
    (hfin : env.digestFinalizeOk = true)
    (hread : ∀ o, env.readOk o = true)
    (hdig : ∀ j, env.digestExtendOk j = true) :
    (tpm_measure_region cfg env C true true pcr).isSome = true ∧
    (runTrace (tpm_measure_region cfg env C true true pcr)).filter
        Event.isRead =
      (chunkList C env.data.length 0).map (fun p => Event.readAt p.1 p.2) ∧
    contiguousFrom 0 (chunkList C env.data.length 0) = true ∧
    ((chunkList C env.data.length 0).map Prod.snd).sum = env.data.length ∧
    (∀ p ∈ chunkList C env.data.length 0,
      p.2 = min C (env.data.length - p.1)) ∧
    (runTrace (tpm_measure_region cfg env C true true pcr)).filter
        Event.isExtend =
      [Event.extend pcr (measure_device_alg cfg.gen)
        (env.hashFn (measure_hash_alg cfg.gen) env.data)
        (vb2_digest_size (measure_hash_alg cfg.gen))] := by
  have hloop := measure_loop_all_ok env C env.data.length hC hS hread hdig
    env.data.length 0 0 [] (by omega) (by omega)
  simp only [List.drop_zero, Nat.sub_zero, List.take_length,
    List.nil_append] at hloop
  have hm : tpm_measure_region cfg env C true true pcr =
      some ((tpm_extend_pcr cfg env pcr (measure_hash_alg cfg.gen)
          (some (env.hashFn (measure_hash_alg cfg.gen) env.data))
          (vb2_digest_size (measure_hash_alg cfg.gen))).1,
        Event.libInit :: Event.digestInit ::
          (chunkTrace env C env.data.length 0 ++ Event.digestFinalize ::
            (tpm_extend_pcr cfg env pcr (measure_hash_alg cfg.gen)
              (some (env.hashFn (measure_hash_alg cfg.gen) env.data))
              (vb2_digest_size (measure_hash_alg cfg.gen))).2)) := by
    simp only [tpm_measure_region, hlib, hinit, hfin]
    rw [hloop]
    simp
  have hfilters := extend_pcr_measure_filters cfg env pcr
    (vb2_digest_size (measure_hash_alg cfg.gen))
    (env.hashFn (measure_hash_alg cfg.gen) env.data)
  refine ⟨by rw [hm]; rfl, ?_, chunkList_contiguous C env.data.length 0,
    chunkList_snd_sum C env.data.length hC 0,
    fun p hp => chunkList_mem_len C env.data.length 0 p hp, ?_⟩
  · rw [hm]
    simp only [runTrace, Option.getD_some]
    rw [List.filter_cons, List.filter_cons]
    simp only [Event.isRead, List.filter_append, List.filter_cons]
    rw [chunkTrace]
    rw [chunkEvents_filter_read env (chunkList C env.data.length 0)]
    simp [hfilters.2]
  · rw [hm]
    simp only [runTrace, Option.getD_some]
    rw [List.filter_cons, List.filter_cons]
    simp only [Event.isExtend, List.filter_append, List.filter_cons]
    rw [chunkTrace]
    rw [chunkEvents_filter_extend env (chunkList C env.data.length 0)]
    simp [hfilters.1]

/-- C1 witness: the ten-byte region with chunk size 4 on the newer
generation — reads (0,4), (4,4), (8,2) and one extend with the digest of
the whole region. -/
theorem measure_region_chunked_witness :
    (tpm_measure_region cfgGen2 envTen 4 true true 2).isSome = true ∧
    (runTrace (tpm_measure_region cfgGen2 envTen 4 true true 2)).filter
        Event.isRead =
      (chunkList 4 envTen.data.length 0).map
        (fun p => Event.readAt p.1 p.2) ∧
    contiguousFrom 0 (chunkList 4 envTen.data.length 0) = true ∧
    ((chunkList 4 envTen.data.length 0).map Prod.snd).sum =
      envTen.data.length ∧
    (∀ p ∈ chunkList 4 envTen.data.length 0,
      p.2 = min 4 (envTen.data.length - p.1)) ∧
    (runTrace (tpm_measure_region cfgGen2 envTen 4 true true 2)).filter
        Event.isExtend =
      [Event.extend 2 (measure_device_alg cfgGen2.gen)
        (envTen.hashFn (measure_hash_alg cfgGen2.gen) envTen.data)
        (vb2_digest_size (measure_hash_alg cfgGen2.gen))] :=
  measure_region_chunked cfgGen2 envTen 4 2 (by decide) (by decide) rfl rfl
    rfl (fun _ => rfl) (fun _ => rfl)

/-- C7 counterexample: with the read at offset 0 failing, `tpm_measure_region`
returns the read-failure status `TPM_E_READ_FAILURE`, which is a different
status code from `TPM_E_IOERROR` — the claim's "IO error status" (the code
the function reserves for a null digest) is not what a failed chunk read
produces. -/
theorem measure_region_read_fail_counterexample :
    envReadFail.readOk 0 = false ∧
    runStatus (tpm_measure_region cfgGen2 envReadFail 4 true true 0) =
      TPM_E_READ_FAILURE ∧
    TPM_E_READ_FAILURE ≠ TPM_E_IOERROR := by
  decide

/-- C7 (amended): if the chunk read at offset F fails while all reads at
earlier chunk offsets succeed (and the streaming hash never fails), then
`tpm_measure_region` aborts immediately with the read-failure status: no
read at an offset beyond F occurs, the hash is never finalized, and no
device extend command is ever issued. -/
theorem measure_region_read_failure_aborts (cfg : Config) (env : Env)
    (C pcr F : Nat) (hC : 0 < C) (hS : env.data.length < 4294967296)
    (hlib : env.libInitRes = TPM_SUCCESS)
    (hinit : env.digestInitOk = true)
    (hdig : ∀ j, env.digestExtendOk j = true)
    (hFmem : F ∈ (chunkList C env.data.length 0).map Prod.fst)
    (hFfail : env.readOk F = false)
    (hprior : ∀ p ∈ chunkList C env.data.length 0,
      p.1 < F → env.readOk p.1 = true) :
    (tpm_measure_region cfg env C true true pcr).isSome = true ∧
    runStatus (tpm_measure_region cfg env C true true pcr) =
      TPM_E_READ_FAILURE ∧
    (∀ o l, Event.readAt o l ∈
      runTrace (tpm_measure_region cfg env C true true pcr) → o ≤ F) ∧
    Event.digestFinalize ∉
      runTrace (tpm_measure_region cfg env C true true pcr) ∧
    (runTrace (tpm_measure_region cfg env C true true pcr)).filter
      Event.isExtend = [] := by
  obtain ⟨evs, hloop, hr, hf, he⟩ :=
    measure_loop_read_fail env C env.data.length F hC hS hdig hFfail
      env.data.length 0 0 [] (by omega) (by omega) hFmem hprior
  have hm : tpm_measure_region cfg env C true true pcr =
      some (TPM_E_READ_FAILURE,
        Event.libInit :: Event.digestInit :: evs) := by
    simp only [tpm_measure_region, hlib, hinit]
    rw [hloop]
    simp
  rw [hm]
  refine ⟨rfl, rfl, ?_, ?_, ?_⟩
  · intro o l hmem
    simp only [runTrace, Option.getD_some, List.mem_cons] at hmem
    rcases hmem with h | h | h
    · cases h
    · cases h
    · exact hr o l h
  · simp only [runTrace, Option.getD_some, List.mem_cons]
    rintro (h | h | h)
    · cases h
    · cases h
    · exact hf h
  · simp only [runTrace, Option.getD_some, List.filter_cons]
    simp [Event.isExtend, he]

/-- C7 witness: the ten-byte region with chunk size 4 and the read at chunk
offset 4 failing — the run ends with the read-failure status, reads stop at
offset 4, and neither finalization nor extension happens. -/
theorem measure_region_read_failure_aborts_witness :
    (tpm_measure_region cfgGen1 envReadAt4 4 true true 3).isSome = true ∧
    runStatus (tpm_measure_region cfgGen1 envReadAt4 4 true true 3) =
      TPM_E_READ_FAILURE ∧
    (∀ o l, Event.readAt o l ∈
      runTrace (tpm_measure_region cfgGen1 envReadAt4 4 true true 3) →
        o ≤ 4) ∧
    Event.digestFinalize ∉
      runTrace (tpm_measure_region cfgGen1 envReadAt4 4 true true 3) ∧
    (runTrace (tpm_measure_region cfgGen1 envReadAt4 4 true true 3)).filter
      Event.isExtend = [] :=
  measure_region_read_failure_aborts cfgGen1 envReadAt4 4 3 4 (by decide)
    (by decide) rfl rfl (fun _ => rfl) (by decide) (by decide) (by decide)

/-- C8: over a zero-length region (empty region bytes), with transport init,
hash init and hash finalization succeeding, `tpm_measure_region` performs
zero reads, computes the digest of empty input, and still issues exactly one
device extend command carrying that digest. -/
theorem measure_region_zero_length (cfg : Config) (env : Env) (C pcr : Nat)
    (hdata : env.data = [])
    (hlib : env.libInitRes = TPM_SUCCESS)
    (hinit : env.digestInitOk = true)
    (hfin : env.digestFinalizeOk = true) :
    (tpm_measure_region cfg env C true true pcr).isSome = true ∧
    (runTrace (tpm_measure_region cfg env C true true pcr)).filter
        Event.isRead = [] ∧
    (runTrace (tpm_measure_region cfg env C true true pcr)).filter
        Event.isExtend =
      [Event.extend pcr (measure_device_alg cfg.gen)
        (env.hashFn (measure_hash_alg cfg.gen) [])
        (vb2_digest_size (measure_hash_alg cfg.gen))] := by
  have hloop : measure_loop env C env.data.length env.data.length 0 0 [] =
      some ([], Except.ok []) := by
    rw [hdata]
    rfl
  have hm : tpm_measure_region cfg env C true true pcr =
      some ((tpm_extend_pcr cfg env pcr (measure_hash_alg cfg.gen)
          (some (env.hashFn (measure_hash_alg cfg.gen) []))
          (vb2_digest_size (measure_hash_alg cfg.gen))).1,
        Event.libInit :: Event.digestInit :: Event.digestFinalize ::
          (tpm_extend_pcr cfg env pcr (measure_hash_alg cfg.gen)
            (some (env.hashFn (measure_hash_alg cfg.gen) []))
            (vb2_digest_size (measure_hash_alg cfg.gen))).2) := by
    simp only [tpm_measure_region, hlib, hinit, hfin]
    rw [hloop]
    simp
  have hfilters := extend_pcr_measure_filters cfg env pcr
    (vb2_digest_size (measure_hash_alg cfg.gen))
    (env.hashFn (measure_hash_alg cfg.gen) [])
  refine ⟨by rw [hm]; rfl, ?_, ?_⟩
  · rw [hm]
    simp only [runTrace, Option.getD_some]
    rw [List.filter_cons, List.filter_cons, List.filter_cons]
    simp [Event.isRead, hfilters.2]
  · rw [hm]
    simp only [runTrace, Option.getD_some]
    rw [List.filter_cons, List.filter_cons, List.filter_cons]
    simp [Event.isExtend, hfilters.1]

/-- C8 witness: the empty region on the older generation — no reads, one
extend with the digest of empty input. -/
theorem measure_region_zero_length_witness :
    (tpm_measure_region cfgGen1 envAllOk 4 true true 0).isSome = true ∧
    (runTrace (tpm_measure_region cfgGen1 envAllOk 4 true true 0)).filter
        Event.isRead = [] ∧
    (runTrace (tpm_measure_region cfgGen1 envAllOk 4 true true 0)).filter
        Event.isExtend =
      [Event.extend 0 (measure_device_alg cfgGen1.gen)
        (envAllOk.hashFn (measure_hash_alg cfgGen1.gen) [])
        (vb2_digest_size (measure_hash_alg cfgGen1.gen))] :=
  measure_region_zero_length cfgGen1 envAllOk 4 0 rfl rfl rfl rfl

/-- C9: the chunk loop of `tpm_measure_region` terminates for every region
whose size fits the 32-bit offset variable and every positive chunk size —
the whole function produces a result (the fuel of one unit per byte is never
exhausted, because each iteration advances the offset by
`min C (size - offset) ≥ 1`). -/
theorem measure_region_loop_terminates (cfg : Config) (env : Env)
    (C pcr : Nat) (rdevPresent rnamePresent : Bool) (hC : 0 < C)
    (hS : env.data.length < 4294967296) :
    (tpm_measure_region cfg env C rdevPresent rnamePresent pcr).isSome =
      true := by
  simp only [tpm_measure_region]
  split_ifs <;> try rfl
  all_goals
    have hrec := measure_loop_isSome env C env.data.length hC hS
      env.data.length 0 0 [] (by omega) (by omega)
    obtain ⟨x, hx⟩ := Option.isSome_iff_exists.mp hrec
    rw [hx]
    obtain ⟨evs, res⟩ := x
    cases res <;> simp

/-- C9 witness: the ten-byte region with chunk size 3 completes. -/
theorem measure_region_loop_terminates_witness :
    (tpm_measure_region cfgGen2 envTen 3 true false 7).isSome = true :=
  measure_region_loop_terminates cfgGen2 envTen 3 7 true false (by decide)
    (by decide)

end Tspi
